import Mathlib

/-!
# Verification of the broadcast-field extraction pipeline

Shallow embedding of the layered parsing core of the bookstore assistant:
`parser.py` (FGBParser), `littlerazy_parser.py` (LitterazyParser),
`ai_parser.py` (AIParser) and `book_researcher.py` (BookResearcher).
Python strings are modelled as `List Char` / `String`; machine integers as
`Int`; raising code returns `Except PyError`.
-/

namespace Bookstore

/-! ## Python string primitives

ASCII fragments of the Python `str` methods and `re` character classes used
by the sources.  `\s` is modelled by the ASCII whitespace characters, `\w`
and `\d` by their ASCII fragments (all inputs exercised by the theorems
below are within these fragments).
-/

/-- The apostrophe character (code point 39). -/
def apos : Char := Char.ofNat 39

/-- ASCII fragment of Python `\s` / `str.strip` whitespace. -/
def isPySpace (c : Char) : Bool :=
  c = ' ' || c = '\t' || c = '\n' || c = '\r' || c = Char.ofNat 11 || c = Char.ofNat 12

/-- ASCII fragment of Python `str.lower`. -/
def pyLowerChar (c : Char) : Char := c.toLower

/-- ASCII fragment of Python `str.upper`. -/
def pyUpperChar (c : Char) : Char := c.toUpper

/-- `str.lower()`. -/
def pyLower (s : String) : String := String.mk (s.toList.map pyLowerChar)

/-- `str.upper()`. -/
def pyUpper (s : String) : String := String.mk (s.toList.map pyUpperChar)

/-- Strip characters satisfying `p` from both ends (Python `str.strip(chars)`). -/
def stripEnds (p : Char → Bool) (cs : List Char) : List Char :=
  ((cs.dropWhile p).reverse.dropWhile p).reverse

/-- `str.strip()` on a character list. -/
def pyStripL (cs : List Char) : List Char := stripEnds isPySpace cs

/-- `str.strip()`. -/
def pyStrip (s : String) : String := String.mk (pyStripL s.toList)

/-- `str.split(sep)` for a single-character separator; like Python, the
result is never empty. -/
def splitOnChar (sep : Char) : List Char → List (List Char)
  | [] => [[]]
  | c :: cs =>
    let rest := splitOnChar sep cs
    if c = sep then [] :: rest
    else
      match rest with
      | [] => [[c]]
      | r :: rs => (c :: r) :: rs

/-- First line of `text.split('\n')` (always defined, as in Python). -/
def firstLineOf (cs : List Char) : List Char :=
  match splitOnChar '\n' cs with
  | [] => []
  | l :: _ => l

/-- Case-insensitive character comparison (ASCII), as under `re.IGNORECASE`. -/
def caselessEqChar (a b : Char) : Bool := a.toLower = b.toLower

/-- Match a literal (case-insensitively when `ci = true`) against the head of
the input; returns the rest on success. -/
def matchLit (ci : Bool) : List Char → List Char → Option (List Char)
  | [], rest => some rest
  | _ :: _, [] => none
  | l :: ls, c :: cs =>
    if (if ci then caselessEqChar l c else l = c) then matchLit ci ls cs else none

/-- Python `int(str)` (ASCII digits, optional sign, surrounding whitespace,
single underscores allowed between digits as in Python 3). -/
def pyIntDigits : List Char → Nat → Option Nat
  | [], acc => some acc
  | '_' :: c :: rest, acc =>
    if c.isDigit then pyIntDigits rest (acc * 10 + (c.toNat - 48)) else none
  | '_' :: [], _ => none
  | c :: rest, acc =>
    if c.isDigit then pyIntDigits rest (acc * 10 + (c.toNat - 48)) else none

/-- Digit run for `int()`: first char must be a digit. -/
def pyIntCore : List Char → Option Nat
  | [] => none
  | c :: rest => if c.isDigit then pyIntDigits rest (c.toNat - 48) else none

/-- Python `int(s)`, returning `none` where Python raises `ValueError`. -/
def pyIntParse (cs : List Char) : Option Int :=
  match pyStripL cs with
  | '+' :: rest => (pyIntCore rest).map Int.ofNat
  | '-' :: rest => (pyIntCore rest).map (fun n => -(n : Int))
  | rest => (pyIntCore rest).map Int.ofNat

/-- `value.replace('.', '').replace(',', '')`. -/
def removeSeps (cs : List Char) : List Char :=
  cs.filter (fun c => !(c = '.' || c = ','))

/-- Index (from the head) of the first suffix satisfying `p`
(`re.search` scanning order). -/
def findSuffix (p : List Char → Bool) : List Char → Option Nat
  | [] => if p [] then some 0 else none
  | c :: cs => if p (c :: cs) then some 0 else (findSuffix p cs).map Nat.succ

/-- Worker for `collapseWs`; the flag records whether the previous character
was whitespace (already emitted as the single `' '` of its run). -/
def collapseWsGo : Bool → List Char → List Char
  | _, [] => []
  | prevWs, c :: cs =>
    if isPySpace c then
      if prevWs then collapseWsGo true cs else ' ' :: collapseWsGo true cs
    else c :: collapseWsGo false cs

/-- Collapse every maximal whitespace run to a single space
(`re.sub(r'\s+', ' ', s)`). -/
def collapseWs (cs : List Char) : List Char := collapseWsGo false cs

/-! ## Data model

`ParsedBroadcast` is embedded from `models.py`.  The fields `pages`, `stock`
and `ai_fallback` are assigned by `ai_parser.py` and described by the spec
(§3) but are missing from the `models.py` revision in the tree; they are
modelled from the spec there.  The Python `type` attribute is named `type_`
(`type` is a Lean keyword). -/
structure ParsedBroadcast where
  type_ : Option String := none
  eta : Option String := none
  close_date : Option String := none
  title : Option String := none
  title_en : Option String := none
  publisher : Option String := none
  format : Option String := none
  price_main : Option Int := none
  price_secondary : Option Int := none
  min_order : Option String := none
  description_en : Option String := none
  tags : List String := []
  preview_links : List String := []
  separator_emoji : Option String := none
  media_count : Nat := 0
  raw_text : String := ""
  pages : Option Int := none
  stock : Option Int := none
  ai_fallback : Bool := false
deriving DecidableEq

instance : Inhabited ParsedBroadcast := ⟨{}⟩

/-- `BookSearchResult` from `book_researcher.py`. -/
structure BookSearchResult where
  title : String
  author : Option String := none
  publisher : Option String := none
  description : Option String := none
  image_url : Option String := none
  source_url : String := ""
  snippet : Option String := none
deriving DecidableEq

instance : Inhabited BookSearchResult := ⟨{ title := "" }⟩

/-- The single Python exception kind raised by the embedded code
(`ValueError` from a failing `int(...)`). -/
inductive PyError
  | valueError
deriving DecidableEq

/-! ## LitterazyParser (`littlerazy_parser.py`)

The fixed single-line grammar
`^(?P<title>.+?)\s+(?P<format>HC|HB|PB|BB)\s+(?P<price>[\d\.]+)\s+ETA\s+(?P<eta>\w+)\s+(?P<emoji>[🌸🌺🌷🌹💐🌻🌼]+)\s*(?P<description>.*)`
compiled with `re.IGNORECASE | re.DOTALL`, and the heuristic fallback parser.
-/

/-- The flower-emoji class of `HEADER_PATTERN`. -/
def isHeaderEmoji (c : Char) : Bool :=
  c = '🌸' || c = '🌺' || c = '🌷' || c = '🌹' || c = '💐' || c = '🌻' || c = '🌼'

/-- The (strictly smaller) emoji class `[^🌸🌺🌷💐]` used by
`_fallback_parse`'s title regex. -/
def isFallbackEmoji (c : Char) : Bool :=
  c = '🌸' || c = '🌺' || c = '🌷' || c = '💐'

/-- ASCII fragment of Python `\w`. -/
def isWordCharA (c : Char) : Bool := c.isAlphanum || c = '_'

/-- Digits-or-dot class `[\d\.]` of the price group. -/
def isPriceChar (c : Char) : Bool := c.isDigit || c = '.'

/-- The captured groups of `HEADER_PATTERN`. -/
structure LitHeader where
  title : List Char
  format : List Char
  price : List Char
  eta : List Char
  emoji : List Char
  descr : List Char

/-- `\s+`: at least one whitespace character, consumed greedily (every use in
the pattern is followed by a non-whitespace class, so greedy = maximal). -/
def wsPlus : List Char → Option (List Char)
  | [] => none
  | c :: cs => if isPySpace c then some (cs.dropWhile isPySpace) else none

/-- `(?P<format>HC|HB|PB|BB)` under `re.IGNORECASE`; the capture is the
original two characters of the input. -/
def matchFormatCode (cs : List Char) : Option (List Char × List Char) :=
  if (matchLit true ['H', 'C'] cs).isSome || (matchLit true ['H', 'B'] cs).isSome
      || (matchLit true ['P', 'B'] cs).isSome || (matchLit true ['B', 'B'] cs).isSome then
    match cs with
    | a :: b :: rest => some ([a, b], rest)
    | _ => none
  else none

/-- The part of `HEADER_PATTERN` after the lazy title group:
`\s+ format \s+ price \s+ ETA \s+ month \s+ emoji-run \s* description`.
Every quantified class here is disjoint from what follows it, so Python's
greedy matching is maximal munch. -/
def parseAfterTitle (cs : List Char) : Option (List Char × List Char × List Char × List Char × List Char) := do
  let r1 ← wsPlus cs
  let (fmt, r2) ← matchFormatCode r1
  let r3 ← wsPlus r2
  let price := r3.takeWhile isPriceChar
  if price.isEmpty then none else do
    let r4 ← wsPlus (r3.dropWhile isPriceChar)
    let r5 ← matchLit true ['E', 'T', 'A'] r4
    let r6 ← wsPlus r5
    let eta := r6.takeWhile isWordCharA
    if eta.isEmpty then none else do
      let r7 ← wsPlus (r6.dropWhile isWordCharA)
      let emoji := r7.takeWhile isHeaderEmoji
      if emoji.isEmpty then none else do
        let descr := (r7.dropWhile isHeaderEmoji).dropWhile isPySpace
        some (fmt, price, eta, emoji, descr)

/-- Lazy `(?P<title>.+?)` (with `re.DOTALL` it spans newlines): the shortest
nonempty title whose remainder matches the rest of the pattern. -/
def headerFind : List Char → List Char → Option LitHeader
  | _, [] => none
  | seen, c :: rest =>
    match parseAfterTitle rest with
    | some (fmt, price, eta, emoji, descr) =>
      some ⟨(c :: seen).reverse, fmt, price, eta, emoji, descr⟩
    | none => headerFind (c :: seen) rest

/-- `HEADER_PATTERN.match` (anchored at the start). -/
def headerMatch (cs : List Char) : Option LitHeader := headerFind [] cs

/-- ASCII fragment of Python `str.title()`: a letter is uppercased when the
previous character is not a letter, lowercased otherwise. -/
def pyTitleGo : Bool → List Char → List Char
  | _, [] => []
  | prevAlpha, c :: cs =>
    if c.isAlpha then
      (if prevAlpha then c.toLower else c.toUpper) :: pyTitleGo true cs
    else c :: pyTitleGo false cs

/-- Python `str.title()` (ASCII fragment). -/
def pyTitle (cs : List Char) : List Char := pyTitleGo false cs

/-- `LitterazyParser._clean_title`: collapse whitespace, strip, Title Case. -/
def LitterazyParser.clean_title (cs : List Char) : List Char :=
  pyTitle (pyStripL (collapseWs cs))

/-- The month lookup table of `LitterazyParser._format_eta`. -/
def monthMap : List (String × String) :=
  [("JAN", "Jan '25"), ("FEB", "Feb '25"), ("MAR", "Mar '25"),
   ("APR", "Apr '25"), ("MEI", "Mei '25"), ("MAY", "May '25"),
   ("JUN", "Jun '25"), ("JUL", "Jul '25"), ("AUG", "Aug '25"),
   ("AGU", "Aug '25"), ("SEP", "Sep '25"), ("OKT", "Oct '25"),
   ("OCT", "Oct '25"), ("NOV", "Nov '25"), ("DES", "Dec '25"),
   ("DEC", "Dec '25")]

/-- `LitterazyParser._format_eta`: `month_map.get(month.upper(), f"{month} '25")`. -/
def LitterazyParser.format_eta (month : String) : String :=
  match monthMap.lookup (pyUpper month) with
  | some v => v
  | none => month ++ " '25"

/-- Run-limiter for `re.sub(r'\n{3,}', '\n\n', s)`: within a run of
newlines, only the first two are kept. -/
def squeezeNlGo : Nat → List Char → List Char
  | _, [] => []
  | k, c :: cs =>
    if c = '\n' then
      if k < 2 then c :: squeezeNlGo (k + 1) cs else squeezeNlGo (k + 1) cs
    else c :: squeezeNlGo 0 cs

/-- Collapse `[ \t]+` runs to a single space (`re.sub(r'[ \t]+', ' ', s)`);
the flag records whether the previous character was a space or tab. -/
def collapseSpTabGo : Bool → List Char → List Char
  | _, [] => []
  | prev, c :: cs =>
    if c = ' ' || c = '\t' then
      if prev then collapseSpTabGo true cs else ' ' :: collapseSpTabGo true cs
    else c :: collapseSpTabGo false cs

/-- `LitterazyParser._clean_description`: reduce runs of three or more
newlines to two, collapse space/tab runs, strip. -/
def LitterazyParser.clean_description (cs : List Char) : List Char :=
  pyStripL (collapseSpTabGo false (squeezeNlGo 0 cs))

/-- Exactly `n` ASCII digits from the head; returns (digits, rest). -/
def exactDigits : Nat → List Char → Option (List Char × List Char)
  | 0, cs => some ([], cs)
  | _ + 1, [] => none
  | n + 1, c :: cs =>
    if c.isDigit then (exactDigits n cs).map (fun p => (c :: p.1, p.2)) else none

/-- `\b(\d{2,3})\.(\d{3})\b` attempted at the head of `cs` (the leading word
boundary is checked by the caller).  `\d{2,3}` is greedy: three digits are
tried before two.  On success the value is `int(group1 + group2)`. -/
def priceHere (cs : List Char) : Option Int :=
  let attempt : Nat → Option Int := fun k =>
    match exactDigits k cs with
    | none => none
    | some (d1, r1) =>
      match r1 with
      | '.' :: r2 =>
        match exactDigits 3 r2 with
        | none => none
        | some (d2, r3) =>
          match r3 with
          | [] => pyIntParse (d1 ++ d2)
          | c :: _ => if isWordCharA c then none else pyIntParse (d1 ++ d2)
      | _ => none
  match attempt 3 with
  | some v => some v
  | none => attempt 2

/-- `re.search(r'\b(\d{2,3})\.(\d{3})\b', text)`: leftmost match; `prev` is
the character before the current position (for the leading `\b`). -/
def findPriceGo : Option Char → List Char → Option Int
  | _, [] => none
  | prev, c :: cs =>
    let boundaryOk := match prev with | none => true | some p => !(isWordCharA p)
    if boundaryOk then
      match priceHere (c :: cs) with
      | some v => some v
      | none => findPriceGo (some c) cs
    else findPriceGo (some c) cs

/-- Leftmost `\b(\d{2,3})\.(\d{3})\b` in the text, as an integer. -/
def findPrice (cs : List Char) : Option Int := findPriceGo none cs

/-- `LitterazyParser._fallback_parse`: first line up to the first of
🌸🌺🌷💐 as title (stripped, truncated to 100), first `\d{2,3}\.\d{3}`
numeral anywhere as price, full text as description. -/
def LitterazyParser.fallback_parse (text : String) (mc : Nat) : ParsedBroadcast :=
  let first_line := pyStripL (firstLineOf (pyStripL text.toList))
  let run := first_line.takeWhile (fun c => !(isFallbackEmoji c))
  let title? := if run.isEmpty then none else some (String.mk ((pyStripL run).take 100))
  { raw_text := text, media_count := mc,
    title := title?, title_en := title?,
    price_main := findPrice text.toList,
    description_en := some text }

/-- `LitterazyParser.parse`: match `HEADER_PATTERN` against the stripped
text; on a match build the structured record (the `int(...)` on the captured
price can raise `ValueError`, e.g. a price capture of only dots), otherwise
run `_fallback_parse`. -/
def LitterazyParser.parse (text : String) (mc : Nat) : Except PyError ParsedBroadcast :=
  match headerMatch (pyStripL text.toList) with
  | some m =>
    let title := String.mk (LitterazyParser.clean_title (pyStripL m.title))
    match pyIntParse (removeSeps m.price) with
    | none => .error .valueError
    | some p =>
      .ok { raw_text := text, media_count := mc,
            title := some title, title_en := some title,
            format := some (pyUpper (String.mk m.format)),
            price_main := some p,
            eta := some (LitterazyParser.format_eta (pyUpper (String.mk m.eta))),
            description_en := some (String.mk (LitterazyParser.clean_description (pyStripL m.descr))),
            separator_emoji := some (String.mk m.emoji),
            type_ := some "Request",
            tags := [] }
  | none => .ok (LitterazyParser.fallback_parse text mc)

/-! ## AIParser (`ai_parser.py`)

The generative-fallback tier.  The backend call (`router.generate_text`
together with the surrounding `try/except` and the `response.error` check)
is modelled as a value of `Except String String`; `_parse_json_response`
(three attempts of `json.loads` with brace / code-fence salvage) is kept
abstract as a parameter `jsonExtract`, since the claims below only
distinguish "yields a dict" from "yields no parseable JSON". -/

/-- The JSON object shape requested by the extraction prompt
(`data` dict consumed by `_to_parsed_broadcast`). -/
structure ExtractedData where
  title : Option String := none
  type_ : Option String := none
  format : Option String := none
  pages : Option Int := none
  price : Option Int := none
  stock : Option Int := none
  description : Option String := none
  tags : Option (List String) := none
  preview_links : Option (List String) := none
  eta : Option String := none
  close_date : Option String := none
  publisher : Option String := none

/-- The `format_map` of `AIParser._to_parsed_broadcast`. -/
def formatAliasMap : List (String × String) :=
  [("hardcover", "HB"), ("hb", "HB"), ("hc", "HB"),
   ("paperback", "PB"), ("pb", "PB"),
   ("board book", "BB"), ("bb", "BB"), ("boardbook", "BB")]

/-- `AIParser._to_parsed_broadcast`: map the extracted dict onto
`ParsedBroadcast`, normalising the format code (the `if format_val:` guard
skips `None` and the empty string, Python falsiness), always with
`ai_fallback = True`. -/
def AIParser.to_parsed_broadcast (d : ExtractedData) (raw : String) (mc : Nat) : ParsedBroadcast :=
  let fv : Option String :=
    match d.format with
    | none => none
    | some f =>
      if f = "" then some f
      else some ((formatAliasMap.lookup (pyLower f)).getD (pyUpper f))
  { raw_text := raw, media_count := mc,
    title := d.title, title_en := d.title,
    type_ := d.type_, format := fv,
    price_main := d.price, stock := d.stock,
    description_en := d.description,
    tags := d.tags.getD [], preview_links := d.preview_links.getD [],
    eta := d.eta, close_date := d.close_date, publisher := d.publisher,
    pages := d.pages, ai_fallback := true }

/-- The (mojibake) character class `[-â€“:]` of `_create_fallback`'s
marker-stripping regex: the source file contains the UTF-8 bytes of an en
dash read back as Latin-1, so the class holds these five characters. -/
def isMarkerDash (c : Char) : Bool :=
  c = '-' || c = 'â' || c = '€' || c = '“' || c = ':'

/-- The alternation `(READY|Remainderbook|Request)` under `re.IGNORECASE`,
tried left to right. -/
def matchCategoryKeyword (cs : List Char) : Option (List Char) :=
  match matchLit true "READY".toList cs with
  | some r => some r
  | none =>
    match matchLit true "Remainderbook".toList cs with
    | some r => some r
    | none => matchLit true "Request".toList cs

/-- One anchored substitution of
`^\*?\[?\s*(READY|Remainderbook|Request)\s*\]?\s*[-â€“:]?\s*` (IGNORECASE):
each optional piece is decided greedily (no following piece can consume its
characters), and the whole pattern fails exactly when the keyword is not
found, in which case the text is unchanged. -/
def stripMarkerCore (cs : List Char) : Option (List Char) := do
  let r1 := match cs with | '*' :: r => r | _ => cs
  let r2 := match r1 with | '[' :: r => r | _ => r1
  let r3 := r2.dropWhile isPySpace
  let r4 ← matchCategoryKeyword r3
  let r5 := r4.dropWhile isPySpace
  let r6 := match r5 with | ']' :: r => r | _ => r5
  let r7 := r6.dropWhile isPySpace
  let r8 := match r7 with
    | c :: r => if isMarkerDash c then r else r7
    | [] => r7
  some (r8.dropWhile isPySpace)

/-- `re.sub` of the category-marker pattern (at most one substitution: the
pattern is anchored at the start). -/
def AIParser.strip_category_marker (cs : List Char) : List Char :=
  (stripMarkerCore cs).getD cs

/-- `AIParser._create_fallback`: minimal record built from the first line of
the stripped text, truncated to 100 characters, cleaned of category markers,
then `.strip('*').strip()`; `ai_fallback = True`.  (`text.strip().split('\n')`
is never empty in Python, so the `"Unknown"` branch is dead code.) -/
def AIParser.create_fallback (text : String) (mc : Nat) : ParsedBroadcast :=
  let line0 := firstLineOf (pyStripL text.toList)
  let t1 := line0.take 100
  let t2 := AIParser.strip_category_marker t1
  let t3 := pyStripL (stripEnds (fun c => c = '*') t2)
  let title := String.mk t3
  { raw_text := text, media_count := mc,
    title := some title, title_en := some title,
    description_en := some text,
    tags := [], preview_links := [],
    ai_fallback := true }

/-- `AIParser.parse`: on a backend error (caught exception or
`response.error`) or when no JSON can be parsed from the response, degrade
to `_create_fallback`; otherwise build the record from the extracted dict.
This function is total: the error path never raises. -/
def AIParser.parse (jsonExtract : String → Option ExtractedData)
    (backend : Except String String) (text : String) (mc : Nat) : ParsedBroadcast :=
  match backend with
  | .error _ => AIParser.create_fallback text mc
  | .ok responseText =>
    match jsonExtract responseText with
    | none => AIParser.create_fallback text mc
    | some d => AIParser.to_parsed_broadcast d text mc

/-! ## FGBParser (`parser.py`)

The rule table (`config/parser-rules.yaml`) is configuration, not code of
the repository, so a rule's compiled regex behaviour is abstracted as two
functions (`re.search` + group selection, and `re.findall` captures); the
engine's control flow around them is embedded exactly. -/

/-- A value produced by `_extract_field`: the captured string, the
integer result of the `remove_separators` transform, or the list of
captures of a `multi` rule. -/
inductive FieldValue
  | str (s : String)
  | int (n : Int)
  | strs (xs : List String)
deriving DecidableEq

/-- One rule entry of the pattern table. -/
structure PatternRule where
  search : String → Option String
  findall : String → List String
  transform : Bool
  multi : Bool

/-- The rule loop of `FGBParser._extract_field`: first match wins; a `multi`
rule returns all captures; `transform == 'remove_separators'` strips `.` and
`,` and calls `int(...)`, which raises `ValueError` on unparseable text —
there is no `try/except` around it in the source, so the error propagates. -/
def FGBParser.try_rules : List PatternRule → String → Except PyError (Option FieldValue)
  | [], _ => .ok none
  | r :: rest, text =>
    if r.multi then
      match r.findall text with
      | [] => FGBParser.try_rules rest text
      | m :: ms => .ok (some (.strs (m :: ms)))
    else
      match r.search text with
      | none => FGBParser.try_rules rest text
      | some v =>
        if r.transform then
          match pyIntParse (removeSeps v.toList) with
          | some n => .ok (some (.int n))
          | none => .error .valueError
        else .ok (some (.str v))

/-- `FGBParser._extract_field` for one field: honour the `skip_rules` flag,
then run the field's rule list. -/
def FGBParser.extract_field (skip : Bool) (rules : List PatternRule) (text : String) :
    Except PyError (Option FieldValue) :=
  if skip then .ok none else FGBParser.try_rules rules text

/-- The separator class `(🌳|🦊)` of `_extract_description`. -/
def isSepTreeFox (c : Char) : Bool := c = '🌳' || c = '🦊'

/-- `(🌳|🦊){2,}` can start here: two separator characters (possibly mixed). -/
def sepRunHere (cs : List Char) : Bool :=
  match cs with
  | a :: b :: _ => isSepTreeFox a && isSepTreeFox b
  | _ => false

/-- `re.search(r'(🌳|🦊){2,}', text).end()`: end of the (greedy, maximal)
run at the first position where at least two separator characters appear. -/
def sepRunEnd (cs : List Char) : Option Nat :=
  (findSuffix sepRunHere cs).map (fun i => i + ((cs.drop i).takeWhile isSepTreeFox).length)

/-- The two-code-point tag emoji `🏷️` (U+1F3F7 U+FE0F) starts here. -/
def tagHere (cs : List Char) : Bool :=
  match cs with
  | a :: b :: _ => a = '🏷' && b = '️'
  | _ => false

/-- `re.search(r'🏷️.*?(?:\n|$)', text, re.MULTILINE).end()`: the lazy `.*?`
cannot cross a newline, so the match ends just after the first newline at or
after the tag, or at the end of the input when there is none. -/
def priceLineEnd (cs : List Char) : Option Nat :=
  match findSuffix tagHere cs with
  | none => none
  | some i =>
    let after := cs.drop (i + 2)
    match findSuffix (fun s => match s with | c :: _ => c = '\n' | [] => false) after with
    | some j => some (i + 2 + j + 1)
    | none => some cs.length

/-- `_?Preview\s*:?_?` (IGNORECASE) can start here; the pieces after
`Preview` are all optional and do not affect the match start. -/
def previewHere (cs : List Char) : Bool :=
  (matchLit true "Preview".toList cs).isSome ||
  (match cs with
   | '_' :: r => (matchLit true "Preview".toList r).isSome
   | _ => false)

/-- `\s*https?://` from this point (after an optional leading `*`). -/
def linkCore (cs : List Char) : Bool :=
  let r := cs.dropWhile isPySpace
  (matchLit false "http://".toList r).isSome || (matchLit false "https://".toList r).isSome

/-- `\*?\s*https?://` can start here (an unconsumed `*` cannot be matched by
`\s*` or the literal, so the optional star is decided deterministically). -/
def linkHere (cs : List Char) : Bool :=
  match cs with
  | '*' :: r => linkCore r
  | _ => linkCore cs

/-- The cleanup applied to the sliced description: `.strip()`, then
`re.sub(r'[\*_]+', '', ...)`, then `re.sub(r'\s+', ' ', ...)`, then
`.strip()`. -/
def descCleanup (cs : List Char) : String :=
  String.mk (pyStripL (collapseWs ((pyStripL cs).filter (fun c => !(c = '*' || c = '_')))))

/-- `FGBParser._extract_description`: start after the separator run, else
after the price line (else return `""`); end at the earliest of the
`Preview` marker or the first link; strip, remove `*`/`_`, collapse
whitespace, strip. -/
def FGBParser.extract_description (text : String) : String :=
  let cs := text.toList
  let start? :=
    match sepRunEnd cs with
    | some e => some e
    | none => priceLineEnd cs
  match start? with
  | none => ""
  | some start =>
    let remaining := cs.drop start
    let pA := findSuffix previewHere remaining
    let pB := findSuffix linkHere remaining
    let sliced :=
      match pA, pB with
      | none, none => remaining
      | some a, none => remaining.take a
      | none, some b => remaining.take b
      | some a, some b => remaining.take (min a b)
    descCleanup sliced

/-- The end of the description window, as the claim words it: the earliest
of the `Preview` marker or the first http(s) URL, or the end of the input
when neither is present. -/
def descEndPos (remaining : List Char) : Nat :=
  min ((findSuffix previewHere remaining).getD remaining.length)
    ((findSuffix linkHere remaining).getD remaining.length)

/-- Projection of an extracted value onto a string-typed model field (the
rule table supplies string captures for string fields). -/
def asStr : Option FieldValue → Option String
  | some (.str s) => some s
  | _ => none

/-- Projection onto an integer field (`remove_separators` rules). -/
def asInt : Option FieldValue → Option Int
  | some (.int n) => some n
  | _ => none

/-- Projection onto a list field; `tags if tags else []` maps a missing or
empty result to `[]`. -/
def asStrs : Option FieldValue → List String
  | some (.strs xs) => xs
  | _ => []

/-- `FGBParser.parse`: build the record with `raw_text = text`, extract every
field in source order (any `ValueError` from a transform propagates), then
run the description extractor. -/
def FGBParser.parse (skip : String → Bool) (patterns : String → List PatternRule)
    (text : String) (mc : Nat) : Except PyError ParsedBroadcast := do
  let ty ← FGBParser.extract_field (skip "type") (patterns "type") text
  let eta ← FGBParser.extract_field (skip "eta") (patterns "eta") text
  let close ← FGBParser.extract_field (skip "close_date") (patterns "close_date") text
  let title ← FGBParser.extract_field (skip "title") (patterns "title") text
  let fmt ← FGBParser.extract_field (skip "format") (patterns "format") text
  let pub ← FGBParser.extract_field (skip "publisher") (patterns "publisher") text
  let p1 ← FGBParser.extract_field (skip "price_main") (patterns "price_main") text
  let p2 ← FGBParser.extract_field (skip "price_secondary") (patterns "price_secondary") text
  let mo ← FGBParser.extract_field (skip "min_order") (patterns "min_order") text
  let sep ← FGBParser.extract_field (skip "separator") (patterns "separator") text
  let tags ← FGBParser.extract_field (skip "tags") (patterns "tags") text
  let links ← FGBParser.extract_field (skip "preview_links") (patterns "preview_links") text
  .ok { raw_text := text, media_count := mc,
        type_ := asStr ty, eta := asStr eta, close_date := asStr close,
        title := asStr title, title_en := asStr title,
        format := asStr fmt, publisher := asStr pub,
        price_main := asInt p1, price_secondary := asInt p2,
        min_order := asStr mo, separator_emoji := asStr sep,
        tags := asStrs tags, preview_links := asStrs links,
        description_en := some (FGBParser.extract_description text) }

/-! ## CompletionEvaluator

`is_complete` is called on the parsers by the test suite
(`tests/test_ai_parser.py`) but its definition is not in the tree; it is
modelled from the spec. -/

/-- Modelled from the spec: the `is_complete` completion evaluator (absent
from `src/`, only its test callers are present).  "Minimum bar for
'complete': `title` is non-empty AND `price_main` is present." -/
def is_complete (r : ParsedBroadcast) : Bool :=
  (match r.title with
   | some t => t ≠ ""
   | none => false) && r.price_main.isSome

/-- Modelled from the spec: the escalation decision — the generative
fallback tier is invoked exactly when the completion evaluator reports an
incomplete record. -/
def escalates_to_generative (r : ParsedBroadcast) : Bool := !is_complete r

/-! ## BookResearcher (`book_researcher.py`)

The nine-stage `_clean_title` pipeline and the deduplication pass of
`search_books`.  All its regexes are embedded as deterministic scanners;
for every quantified subpattern the following piece starts with a character
class disjoint from the quantified one, so Python's backtracking collapses
to maximal (or, for lazy groups, minimal) munch, which is what the scanners
implement.  `$` (no MULTILINE) matches at the end of the string or just
before a final newline. -/

/-- `.*$`: succeeds iff the text contains no newline except possibly a final
one, which `$` leaves unconsumed (returned as the leftover). -/
def dotStarToEnd (cs : List Char) : Option (List Char) :=
  if cs.getLast? = some '\n' then
    if cs.dropLast.all (fun c => !(c = '\n')) then some ['\n'] else none
  else if cs.all (fun c => !(c = '\n')) then some [] else none

/-- `(.+)$`: like `.*$` but the capture must be nonempty; returns the
captured text. -/
def dotPlusToEnd (cs : List Char) : Option (List Char) :=
  match dotStarToEnd cs with
  | none => none
  | some leftover =>
    let body := cs.take (cs.length - leftover.length)
    if body.isEmpty then none else some body

/-- `re.sub(pat, '', s)` for a pattern matching up to `$`: delete from the
leftmost position where `hereP` succeeds, keeping its leftover (at most one
match, since a match extends to the end). -/
def subToEnd (hereP : List Char → Option (List Char)) : List Char → List Char
  | [] => []
  | c :: cs =>
    match hereP (c :: cs) with
    | some leftover => leftover
    | none => c :: subToEnd hereP cs

/-- `:?\s*Amazon\.co\.uk:?\s*:?\s*Books?\s*$` (IGNORECASE) at this position;
the trailing `\s*$` consumes everything (`\s` includes the newline). -/
def amazonUkHere (cs : List Char) : Option (List Char) := do
  let r1 := match cs with | ':' :: r => r | _ => cs
  let r2 := r1.dropWhile isPySpace
  let r3 ← matchLit true "amazon.co.uk".toList r2
  let r4 := match r3 with | ':' :: r => r | _ => r3
  let r5 := r4.dropWhile isPySpace
  let r6 := match r5 with | ':' :: r => r | _ => r5
  let r7 := r6.dropWhile isPySpace
  let r8 ← matchLit true "book".toList r7
  let r9 := match r8 with
    | c :: r => if caselessEqChar c 's' then r else r8
    | [] => r8
  if r9.all isPySpace then some [] else none

/-- `:?\s*Amazon\.com:?\s*:?\s*Books?\s*$` (IGNORECASE). -/
def amazonComHere (cs : List Char) : Option (List Char) := do
  let r1 := match cs with | ':' :: r => r | _ => cs
  let r2 := r1.dropWhile isPySpace
  let r3 ← matchLit true "amazon.com".toList r2
  let r4 := match r3 with | ':' :: r => r | _ => r3
  let r5 := r4.dropWhile isPySpace
  let r6 := match r5 with | ':' :: r => r | _ => r5
  let r7 := r6.dropWhile isPySpace
  let r8 ← matchLit true "book".toList r7
  let r9 := match r8 with
    | c :: r => if caselessEqChar c 's' then r else r8
    | [] => r8
  if r9.all isPySpace then some [] else none

/-- `:?\s*Amazon\.[a-z.]+.*$` (IGNORECASE). -/
def amazonAnyHere (cs : List Char) : Option (List Char) := do
  let r1 := match cs with | ':' :: r => r | _ => cs
  let r2 := r1.dropWhile isPySpace
  let r3 ← matchLit true "amazon.".toList r2
  let body := r3.takeWhile (fun c => c.isAlpha || c = '.')
  if body.isEmpty then none
  else dotStarToEnd (r3.dropWhile (fun c => c.isAlpha || c = '.'))

/-- `[A-Z][a-z]+`: one ASCII uppercase letter then a maximal nonempty run of
lowercase letters; returns (word, rest). -/
def capWordHere (cs : List Char) : Option (List Char × List Char) :=
  match cs with
  | [] => none
  | c :: rest =>
    if c.isUpper then
      let low := rest.takeWhile Char.isLower
      if low.isEmpty then none else some (c :: low, rest.dropWhile Char.isLower)
    else none

/-- Tail of the interview pattern `^([A-Z][a-z]+(?:\s+[A-Z][a-z]+)+)\s+on\s+(.+)$`
after `n ≥ 1` capitalized words have been consumed: the greedy `(?:…)+`
first tries to take another word; on failure of the whole remainder it gives
one word back, i.e. tries `\s+on\s+(.+)$` at each count from the largest
down, requiring at least two words in group 1.  Returns the group-2
capture.  Fuelled by the input length (each further word consumes at least
two characters, so the fuel is never exhausted). -/
def interviewTailGo : Nat → List Char → Nat → Option (List Char)
  | 0, _, _ => none
  | fuel + 1, rest, n =>
    let tryOn : Option (List Char) :=
      if n ≥ 2 then do
        let r1 ← wsPlus rest
        let r2 ← matchLit false ['o', 'n'] r1
        let r3 ← wsPlus r2
        dotPlusToEnd r3
      else none
    match wsPlus rest with
    | none => tryOn
    | some r1 =>
      match capWordHere r1 with
      | none => tryOn
      | some (_, r2) =>
        match interviewTailGo fuel r2 (n + 1) with
        | some t => some t
        | none => tryOn

/-- The interview-pattern tail with adequate fuel. -/
def interviewTail (rest : List Char) (n : Nat) : Option (List Char) :=
  interviewTailGo (rest.length + 1) rest n

/-- Step 1 of `_clean_title`: unwrap an "Author Name on Title" interview
prefix (`re.match`, case-sensitive), keeping group 2. -/
def interviewUnwrap (cs : List Char) : List Char :=
  match capWordHere cs with
  | none => cs
  | some (_, rest) =>
    match interviewTail rest 1 with
    | some captured => captured
    | none => cs

/-- `\s+is\s+a\s+` (IGNORECASE). -/
def isAHere (cs : List Char) : Option (List Char) := do
  let r1 ← wsPlus cs
  let r2 ← matchLit true "is".toList r1
  let r3 ← wsPlus r2
  let r4 ← matchLit true "a".toList r3
  wsPlus r4

/-- `(?:picture\s+)?` (IGNORECASE): the group is taken iff `picture`
followed by whitespace is present (otherwise `book` cannot match at `p`). -/
def optPicture (cs : List Char) : List Char :=
  match matchLit true "picture".toList cs with
  | none => cs
  | some r =>
    match wsPlus r with
    | none => cs
    | some r2 => r2

/-- `\s+is\s+a\s+children'?s?\s+(?:picture\s+)?book.*$` (IGNORECASE). -/
def descriptor1Here (cs : List Char) : Option (List Char) := do
  let r5 ← isAHere cs
  let r6 ← matchLit true "children".toList r5
  let r7 := match r6 with
    | c :: r => if c = apos then r else r6
    | [] => r6
  let r8 := match r7 with
    | c :: r => if caselessEqChar c 's' then r else r7
    | [] => r7
  let r9 ← wsPlus r8
  let r10 := optPicture r9
  let r11 ← matchLit true "book".toList r10
  dotStarToEnd r11

/-- `\s+is\s+a\s+(?:picture\s+)?book.*$` (IGNORECASE). -/
def descriptor2Here (cs : List Char) : Option (List Char) := do
  let r5 ← isAHere cs
  let r10 := optPicture r5
  let r11 ← matchLit true "book".toList r10
  dotStarToEnd r11

/-- The dash class `[-|–]` of the site-suffix patterns. -/
def isSiteDash (c : Char) : Bool := c = '-' || c = '|' || c = '–'

/-- `\s*[-|–]\s*<site>.*$`: the generic shape of the first nine
site-suffix patterns. -/
def dashSiteHere (site : List Char → Option (List Char)) (cs : List Char) :
    Option (List Char) := do
  let r1 := cs.dropWhile isPySpace
  let r2 ← match r1 with
    | c :: r => if isSiteDash c then some r else none
    | [] => none
  let r3 := r2.dropWhile isPySpace
  let r4 ← site r3
  dotStarToEnd r4

/-- `Barnes\s*[&\+]\s*Noble` (IGNORECASE). -/
def barnesSite (cs : List Char) : Option (List Char) := do
  let a ← matchLit true "barnes".toList cs
  let b := a.dropWhile isPySpace
  let c ← match b with
    | x :: xs => if x = '&' || x = '+' then some xs else none
    | [] => none
  matchLit true "noble".toList (c.dropWhile isPySpace)

/-- `The\s+\w+\s+Prize` (IGNORECASE). -/
def thePrizeSite (cs : List Char) : Option (List Char) := do
  let a ← matchLit true "the".toList cs
  let b ← wsPlus a
  let w := b.takeWhile isWordCharA
  if w.isEmpty then none
  else do
    let c ← wsPlus (b.dropWhile isWordCharA)
    matchLit true "prize".toList c

/-- `\w+\s+Prize` (IGNORECASE). -/
def anyPrizeSite (cs : List Char) : Option (List Char) := do
  let w := cs.takeWhile isWordCharA
  if w.isEmpty then none
  else do
    let c ← wsPlus (cs.dropWhile isWordCharA)
    matchLit true "prize".toList c

/-- `\s*\|\s*Official.*$` (IGNORECASE): the last site pattern (pipe only). -/
def pipeOfficialHere (cs : List Char) : Option (List Char) := do
  let r1 := cs.dropWhile isPySpace
  let r2 ← match r1 with
    | '|' :: r => some r
    | _ => none
  let r3 := r2.dropWhile isPySpace
  let r4 ← matchLit true "official".toList r3
  dotStarToEnd r4

/-- The ten `site_patterns` of step 3, in source order. -/
def sitePatternList : List (List Char → Option (List Char)) :=
  [dashSiteHere (matchLit true "amazon.com".toList),
   dashSiteHere (matchLit true "amazon.co.uk".toList),
   dashSiteHere (matchLit true "goodreads".toList),
   dashSiteHere barnesSite,
   dashSiteHere (matchLit true "google books".toList),
   dashSiteHere (matchLit true "waterstones".toList),
   dashSiteHere (matchLit true "book depository".toList),
   dashSiteHere thePrizeSite,
   dashSiteHere anyPrizeSite,
   pipeOfficialHere]

/-- Apply the ten site-suffix substitutions in order. -/
def applySiteSubs (cs : List Char) : List Char :=
  sitePatternList.foldl (fun acc p => subToEnd p acc) cs

/-- `:\s*\d+\s*:` at this position; returns the rest after the match. -/
def volNumHere (cs : List Char) : Option (List Char) :=
  match cs with
  | ':' :: r1 =>
    let r2 := r1.dropWhile isPySpace
    let d := r2.takeWhile Char.isDigit
    if d.isEmpty then none
    else
      match (r2.dropWhile Char.isDigit).dropWhile isPySpace with
      | ':' :: r4 => some r4
      | _ => none
  | _ => none

/-- Global `re.sub(r':\s*\d+\s*:', ':', s)` (non-overlapping, left to
right); fuelled by the input length (each step consumes at least one
character, so the fuel is never exhausted). -/
def subVolNumGo : Nat → List Char → List Char
  | 0, cs => cs
  | _ + 1, [] => []
  | fuel + 1, c :: cs =>
    match volNumHere (c :: cs) with
    | some rest => ':' :: subVolNumGo fuel rest
    | none => c :: subVolNumGo fuel cs

/-- Step 4a: replace every `:\s*\d+\s*:` by `:`. -/
def subVolNum (cs : List Char) : List Char := subVolNumGo (cs.length + 1) cs

/-- `(?:Vol\.?\s*)?` (IGNORECASE). -/
def optVol (cs : List Char) : List Char :=
  match matchLit true "vol".toList cs with
  | none => cs
  | some r =>
    let r2 := match r with | '.' :: x => x | _ => r
    r2.dropWhile isPySpace

/-- `:\s*(?:Vol\.?\s*)?\d+\s*$` (IGNORECASE) at this position. -/
def volEndHere (cs : List Char) : Option (List Char) :=
  match cs with
  | ':' :: r1 =>
    let r2 := r1.dropWhile isPySpace
    let r3 := optVol r2
    let d := r3.takeWhile Char.isDigit
    if d.isEmpty then none
    else if ((r3.dropWhile Char.isDigit).dropWhile isPySpace).isEmpty then some []
    else none
  | _ => none

/-- The part of step 5's pattern after the colon:
`\s*([A-Z][a-z]+(?:\s+[A-Z][a-z]+)?),\s*([A-Z][a-z]+)` (case-sensitive).
The optional second name word is tried first (greedy), then given back. -/
def authorColonRest (cs : List Char) : Bool :=
  let afterName : List Char → Bool := fun r =>
    match r with
    | ',' :: r3 => (capWordHere (r3.dropWhile isPySpace)).isSome
    | _ => false
  let r1 := cs.dropWhile isPySpace
  match capWordHere r1 with
  | none => false
  | some (_, r2) =>
    match (do
      let a ← wsPlus r2
      let p ← capWordHere a
      pure p.2) with
    | some b => afterName b || afterName r2
    | none => afterName r2

/-- Step 5, lazy group 1 of `^(.+?):\s*([A-Z][a-z]+(?:\s+[A-Z][a-z]+)?),\s*([A-Z][a-z]+)`:
the shortest nonempty newline-free prefix followed by a colon whose
remainder matches; `acc` is the reversed candidate. -/
def authorColonGo : List Char → List Char → Option (List Char)
  | _, [] => none
  | acc, ':' :: rest =>
    if !acc.isEmpty && authorColonRest rest then some acc.reverse
    else authorColonGo (':' :: acc) rest
  | acc, c :: rest =>
    if c = '\n' then none else authorColonGo (c :: acc) rest

/-- The part of step 6's pattern after the lazy group: `\s+by\s+[A-Z]`
(IGNORECASE, so the final class is any ASCII letter). -/
def byStartRest (cs : List Char) : Bool :=
  match (do
    let r1 ← wsPlus cs
    let r2 ← matchLit true "by".toList r1
    wsPlus r2) with
  | some r3 =>
    match r3 with
    | c :: _ => c.isAlpha
    | [] => false
  | none => false

/-- Step 6, lazy group 1 of `^(.+?)\s+by\s+[A-Z]` (IGNORECASE). -/
def byAuthorGo : List Char → List Char → Option (List Char)
  | _, [] => none
  | acc, c :: rest =>
    if c = '\n' then none
    else if byStartRest rest then some (c :: acc).reverse
    else byAuthorGo (c :: acc) rest

/-- `\s*[-–|]\s*` at this position (for `re.split`); returns the rest. -/
def dashSplitHere (cs : List Char) : Option (List Char) :=
  match cs.dropWhile isPySpace with
  | c :: r => if c = '-' || c = '–' || c = '|' then some (r.dropWhile isPySpace) else none
  | [] => none

/-- `re.split(r'\s*[-–|]\s*', s)`: leftmost, non-overlapping; fuelled by the
input length (each step consumes at least one character). -/
def reSplitDashGo : Nat → List Char → List Char → List (List Char)
  | 0, acc, cs => [acc.reverse ++ cs]
  | _ + 1, acc, [] => [acc.reverse]
  | fuel + 1, acc, c :: cs =>
    match dashSplitHere (c :: cs) with
    | some rest => acc.reverse :: reSplitDashGo fuel [] rest
    | none => reSplitDashGo fuel (c :: acc) cs

/-- Split on dash/pipe separators with surrounding whitespace. -/
def reSplitDash (cs : List Char) : List (List Char) :=
  reSplitDashGo (cs.length + 1) [] cs

/-- `str.split()` (no argument): split on whitespace runs, no empties. -/
def pySplitWsGo : List Char → List Char → List (List Char)
  | acc, [] => if acc.isEmpty then [] else [acc.reverse]
  | acc, c :: cs =>
    if isPySpace c then
      if acc.isEmpty then pySplitWsGo [] cs else acc.reverse :: pySplitWsGo [] cs
    else pySplitWsGo (c :: acc) cs

/-- `str.split()`. -/
def pySplitWs (cs : List Char) : List (List Char) := pySplitWsGo [] cs

/-- ASCII fragment of `str.islower()`: at least one cased character and no
uppercase one. -/
def pyIsLowerStr (cs : List Char) : Bool :=
  cs.any Char.isLower && cs.all (fun c => !c.isUpper)

/-- The two-word-personal-name heuristic of step 7:
`len(words) == 2 and all(w[0].isupper() and len(w) > 1 and w[1:].islower())`. -/
def isAuthorNamePair (words : List (List Char)) : Bool :=
  words.length = 2 && words.all (fun w =>
    match w with
    | c :: r => c.isUpper && !r.isEmpty && pyIsLowerStr r
    | [] => true)

/-- Step 7: if the title splits on dashes/pipes into several segments, take
the first segment when it has at least two words and is not exactly a
capitalized two-word personal name. -/
def dashSegmentStep (cs : List Char) : List Char :=
  match reSplitDash cs with
  | _ :: _ :: _ =>
    let first := pyStripL (match reSplitDash cs with | p :: _ => p | [] => [])
    let words := pySplitWs first
    if words.length ≥ 2 then
      if isAuthorNamePair words then cs else first
    else cs
  | _ => cs

/-- The trim class `[\s:|\-–]` of step 8. -/
def isTrimPunct (c : Char) : Bool :=
  isPySpace c || c = ':' || c = '|' || c = '-' || c = '–'

/-- Step 8: trailing then leading punctuation trim, then `str.strip()`. -/
def finalTrim (cs : List Char) : List Char :=
  pyStripL (((cs.reverse.dropWhile isTrimPunct).reverse).dropWhile isTrimPunct)

/-- `BookResearcher._clean_title`: the nine-stage cleaning pipeline, in
source order. -/
def BookResearcher.clean_title (raw : String) : String :=
  let t0 := pyStripL raw.toList
  let t1 := subToEnd amazonUkHere t0
  let t2 := subToEnd amazonComHere t1
  let t3 := subToEnd amazonAnyHere t2
  let t4 := interviewUnwrap t3
  let t5 := subToEnd descriptor1Here t4
  let t6 := subToEnd descriptor2Here t5
  let t7 := applySiteSubs t6
  let t8 := subVolNum t7
  let t9 := subToEnd volEndHere t8
  let t10 := match authorColonGo [] t9 with
    | some g1 => g1
    | none => t9
  let t11 := match byAuthorGo [] t10 with
    | some g1 => g1
    | none => t10
  let t12 := dashSegmentStep t11
  String.mk (finalTrim t12)

/-- `BookResearcher._normalize_for_dedup`:
`re.sub(r'[^a-z0-9]', '', title.lower())`. -/
def BookResearcher.normalize_for_dedup (t : String) : String :=
  String.mk ((t.toList.map pyLowerChar).filter (fun c => ('a' ≤ c && c ≤ 'z') || c.isDigit))

/-- The dedup key of a result. -/
def normKey (r : BookSearchResult) : String := BookResearcher.normalize_for_dedup r.title

/-- Python truthiness of `result.image_url` (`None` and `""` are falsy). -/
def hasImage (r : BookSearchResult) : Bool :=
  match r.image_url with
  | some s => s ≠ ""
  | none => false

/-- `deduped[deduped.index(old)] = new`: replace the first element equal to
`old` (pydantic models compare structurally). -/
def replaceFirstEq : List BookSearchResult → BookSearchResult → BookSearchResult → List BookSearchResult
  | [], _, _ => []
  | x :: xs, old, new =>
    if x = old then new :: xs else x :: replaceFirstEq xs old new

/-- The deduplication loop of `BookResearcher.search_books`: `ded` is the
`deduped` list, `seen` the `seen_titles` dict (as an association list whose
head shadows older entries, matching dict lookup). -/
def dedupGo : List BookSearchResult → List BookSearchResult →
    List (String × BookSearchResult) → List BookSearchResult
  | [], ded, _ => ded
  | r :: rest, ded, seen =>
    let key := normKey r
    match seen.lookup key with
    | none => dedupGo rest (ded ++ [r]) ((key, r) :: seen)
    | some kept =>
      if hasImage r && !hasImage kept then
        dedupGo rest (replaceFirstEq ded kept r) ((key, r) :: seen)
      else dedupGo rest ded seen

/-- The deduplication pass of `search_books`. -/
def BookResearcher.dedup (results : List BookSearchResult) : List BookSearchResult :=
  dedupGo results [] []

/-- Keys in order of first appearance (spec side of the dedup contract). -/
def firstOccAux : List String → List String → List String
  | [], _ => []
  | k :: ks, seen =>
    if k ∈ seen then firstOccAux ks seen else k :: firstOccAux ks (k :: seen)

/-- The distinct normalized keys of a result list, in first-seen order. -/
def specKeys (rs : List BookSearchResult) : List String :=
  firstOccAux (rs.map normKey) []

/-- The group of results sharing a normalized key. -/
def groupFor (rs : List BookSearchResult) (k : String) : List BookSearchResult :=
  rs.filter (fun r => normKey r = k)

/-- The spec's choice for a group: the first-seen result, unless a later one
has an image and the kept one does not — iterated, this keeps the first
image-bearing result of the group, or the group's first result when none
has an image. -/
def keptFor (rs : List BookSearchResult) (k : String) : BookSearchResult :=
  ((groupFor rs k).find? hasImage).getD ((groupFor rs k).headD default)

/-- The deduplication contract as worded by the spec: one result per
distinct normalized key, at the key's first-seen position, carrying the
group's chosen representative. -/
def specDedup (rs : List BookSearchResult) : List BookSearchResult :=
  (specKeys rs).map (keptFor rs)

/-! ## Claim-side formulas and concrete instances -/

/-- The generative fallback's title as the original claim words it: the
first line of the input with leading category markers and surrounding
decoration stripped — with no truncation. -/
def claimFallbackTitle (text : String) : String :=
  String.mk (pyStripL (stripEnds (fun c => c = '*')
    (AIParser.strip_category_marker (firstLineOf (pyStripL text.toList)))))

/-- The generative fallback's title as amended: the first line of the
whitespace-stripped input, truncated to its first 100 characters, then
leading category markers and surrounding asterisks/whitespace stripped. -/
def specFallbackTitle (text : String) : String :=
  String.mk (pyStripL (stripEnds (fun c => c = '*')
    (AIParser.strip_category_marker ((firstLineOf (pyStripL text.toList)).take 100))))

/-- A single line of 101 letters: longer than `_create_fallback`'s
100-character truncation. -/
def longLine : String := String.mk (List.replicate 101 'a')

/-- A rule carrying the thousands-separator transform whose capture is not
numeric (rule tables are configuration; this instantiates the engine at a
concrete one). -/
def ruleBadCapture : PatternRule :=
  { search := fun _ => some "N/A", findall := fun _ => [], transform := true, multi := false }

/-- A later rule for the same field whose capture is a parseable price. -/
def ruleGoodPrice : PatternRule :=
  { search := fun _ => some "42.000", findall := fun _ => [], transform := true, multi := false }

/-- An empty FGB configuration (every field: no rules, not skipped). -/
def emptySkip : String → Bool := fun _ => false

/-- An empty FGB pattern table. -/
def emptyPatterns : String → List PatternRule := fun _ => []

/-- Unpack an `Except` result (total helper used by witnesses). -/
def pbOfE (e : Except PyError ParsedBroadcast) : ParsedBroadcast :=
  match e with
  | .ok r => r
  | .error _ => default

/-- A search result without an image (dedup witness). -/
def resPlain : BookSearchResult := { title := "The Book!", source_url := "u1" }

/-- A later search result with the same normalized title and an image. -/
def resImg : BookSearchResult :=
  { title := "the book", image_url := some "http://img", source_url := "u2" }

/-! ## Helper lemmas -/

theorem except_bind_ok {α β : Type} {e : Except PyError α} {f : α → Except PyError β} {r : β}
    (h : e >>= f = Except.ok r) : ∃ a, e = Except.ok a ∧ f a = Except.ok r := by
  cases e with
  | error err => simp [bind, Except.bind] at h
  | ok a => exact ⟨a, rfl, h⟩

theorem lookup_mem {l : List (String × String)} {k v : String}
    (h : l.lookup k = some v) : (k, v) ∈ l := by
  induction l with
  | nil => simp [List.lookup] at h
  | cons a l ih =>
    rw [List.lookup] at h
    split at h
    · next heq =>
      cases h
      simp at heq
      cases a
      simp at heq
      subst heq
      left
    · right
      exact ih h

theorem findSuffix_le {p : List Char → Bool} :
    ∀ {cs : List Char} {i : Nat}, findSuffix p cs = some i → i ≤ cs.length := by
  intro cs
  induction cs with
  | nil =>
    intro i h
    simp only [findSuffix] at h
    split at h
    · cases h; simp
    · cases h
  | cons c cs ih =>
    intro i h
    simp only [findSuffix] at h
    split at h
    · cases h; simp
    · cases hj : findSuffix p cs with
      | none => rw [hj] at h; cases h
      | some j =>
        rw [hj] at h
        cases h
        exact Nat.succ_le_succ (ih hj)

theorem slice_eq_take_descEndPos (remaining : List Char) :
    (match findSuffix previewHere remaining, findSuffix linkHere remaining with
      | none, none => remaining
      | some a, none => remaining.take a
      | none, some b => remaining.take b
      | some a, some b => remaining.take (min a b)) =
    remaining.take (descEndPos remaining) := by
  unfold descEndPos
  cases hA : findSuffix previewHere remaining with
  | none =>
    cases hB : findSuffix linkHere remaining with
    | none => simp
    | some b => simp [Nat.min_eq_right (findSuffix_le hB)]
  | some a =>
    cases hB : findSuffix linkHere remaining with
    | none => simp [Nat.min_eq_left (findSuffix_le hA)]
    | some b => simp

theorem mem_firstOccAux {a : String} :
    ∀ {xs acc : List String}, a ∈ firstOccAux xs acc ↔ (a ∈ xs ∧ a ∉ acc) := by
  intro xs
  induction xs with
  | nil => intro acc; simp [firstOccAux]
  | cons k ks ih =>
    intro acc
    simp only [firstOccAux]
    by_cases hk : k ∈ acc
    · rw [if_pos hk, ih]
      by_cases hak : a = k
      · subst hak; simp [hk]
      · simp [hak]
    · rw [if_neg hk]
      by_cases hak : a = k
      · subst hak; simp [hk]
      · simp only [List.mem_cons, ih, not_or]
        tauto

theorem firstOccAux_congr :
    ∀ {xs acc₁ acc₂ : List String}, (∀ a, a ∈ acc₁ ↔ a ∈ acc₂) →
      firstOccAux xs acc₁ = firstOccAux xs acc₂ := by
  intro xs
  induction xs with
  | nil => intro acc₁ acc₂ _; rfl
  | cons k ks ih =>
    intro acc₁ acc₂ h
    simp only [firstOccAux]
    by_cases hk : k ∈ acc₁
    · rw [if_pos hk, if_pos ((h k).mp hk)]
      exact ih h
    · rw [if_neg hk, if_neg (fun hc => hk ((h k).mpr hc))]
      refine congrArg _ (ih ?_)
      intro a
      simp only [List.mem_cons]
      exact or_congr Iff.rfl (h a)

theorem firstOccAux_append :
    ∀ {xs ys acc : List String},
      firstOccAux (xs ++ ys) acc = firstOccAux xs acc ++ firstOccAux ys (xs ++ acc) := by
  intro xs
  induction xs with
  | nil => intro ys acc; simp [firstOccAux]
  | cons k ks ih =>
    intro ys acc
    by_cases hk : k ∈ acc
    · have h1 : firstOccAux ((k :: ks) ++ ys) acc = firstOccAux (ks ++ ys) acc := by
        simp only [List.cons_append, firstOccAux, if_pos hk, List.append_eq]
      have h2 : firstOccAux (k :: ks) acc = firstOccAux ks acc := by
        simp only [firstOccAux, if_pos hk]
      rw [h1, h2, ih]
      refine congrArg _ (firstOccAux_congr ?_)
      intro a
      simp only [List.mem_append, List.cons_append, List.mem_cons]
      constructor
      · exact fun h => Or.inr h
      · rintro (rfl | h)
        · exact Or.inr hk
        · exact h
    · have h1 : firstOccAux ((k :: ks) ++ ys) acc = k :: firstOccAux (ks ++ ys) (k :: acc) := by
        simp only [List.cons_append, firstOccAux, if_neg hk, List.append_eq]
      have h2 : firstOccAux (k :: ks) acc = k :: firstOccAux ks (k :: acc) := by
        simp only [firstOccAux, if_neg hk]
      rw [h1, h2, ih, List.cons_append]
      refine congrArg _ (congrArg _ (firstOccAux_congr ?_))
      intro a
      simp only [List.mem_append, List.mem_cons]
      tauto

theorem firstOccAux_nodup : ∀ {xs acc : List String}, (firstOccAux xs acc).Nodup := by
  intro xs
  induction xs with
  | nil => intro acc; simp [firstOccAux]
  | cons k ks ih =>
    intro acc
    simp only [firstOccAux]
    by_cases hk : k ∈ acc
    · rw [if_pos hk]; exact ih
    · rw [if_neg hk]
      refine List.nodup_cons.mpr ⟨?_, ih⟩
      intro hc
      exact (mem_firstOccAux.mp hc).2 (List.mem_cons_self k acc)

theorem specKeys_concat_notmem {rs : List BookSearchResult} {r : BookSearchResult}
    (h : normKey r ∉ rs.map normKey) :
    specKeys (rs ++ [r]) = specKeys rs ++ [normKey r] := by
  unfold specKeys
  rw [List.map_append, firstOccAux_append]
  refine congrArg _ ?_
  simp only [List.map_cons, List.map_nil, firstOccAux]
  rw [if_neg (by simpa using h)]

theorem specKeys_concat_mem {rs : List BookSearchResult} {r : BookSearchResult}
    (h : normKey r ∈ rs.map normKey) :
    specKeys (rs ++ [r]) = specKeys rs := by
  unfold specKeys
  rw [List.map_append, firstOccAux_append]
  simp only [List.map_cons, List.map_nil, firstOccAux]
  rw [if_pos (by simpa using h)]
  simp

theorem groupFor_concat (rs : List BookSearchResult) (r : BookSearchResult) (k : String) :
    groupFor (rs ++ [r]) k =
      groupFor rs k ++ (if normKey r = k then [r] else []) := by
  unfold groupFor
  rw [List.filter_append]
  refine congrArg _ ?_
  by_cases h : normKey r = k
  · simp [h]
  · simp [h]

theorem keptFor_concat_ne {rs : List BookSearchResult} {r : BookSearchResult} {k : String}
    (h : normKey r ≠ k) : keptFor (rs ++ [r]) k = keptFor rs k := by
  unfold keptFor
  rw [groupFor_concat, if_neg h, List.append_nil]

theorem groupFor_eq_nil {rs : List BookSearchResult} {k : String}
    (h : k ∉ rs.map normKey) : groupFor rs k = [] := by
  unfold groupFor
  rw [List.filter_eq_nil_iff]
  intro a ha
  simp only [decide_eq_true_eq]
  intro hc
  exact h (hc ▸ List.mem_map_of_mem normKey ha)

theorem groupFor_ne_nil {rs : List BookSearchResult} {k : String}
    (h : k ∈ rs.map normKey) : groupFor rs k ≠ [] := by
  obtain ⟨a, ha, hk⟩ := List.mem_map.mp h
  intro hc
  have : a ∈ groupFor rs k := by
    unfold groupFor
    rw [List.mem_filter]
    exact ⟨ha, by simp [hk]⟩
  rw [hc] at this
  cases this

theorem keptFor_mem_group {rs : List BookSearchResult} {k : String}
    (h : k ∈ rs.map normKey) : keptFor rs k ∈ groupFor rs k := by
  unfold keptFor
  cases hf : (groupFor rs k).find? hasImage with
  | some x => simpa using List.mem_of_find?_eq_some hf
  | none =>
    simp only [Option.getD_none]
    cases hg : groupFor rs k with
    | nil => exact absurd hg (groupFor_ne_nil h)
    | cons g gs => simp

theorem keptFor_normKey {rs : List BookSearchResult} {k : String}
    (h : k ∈ rs.map normKey) : normKey (keptFor rs k) = k := by
  have := keptFor_mem_group h
  unfold groupFor at this
  have := List.of_mem_filter this
  simpa using this

theorem replaceFirstEq_map {ks : List String} {f : String → BookSearchResult}
    {k : String} {r : BookSearchResult}
    (hnd : ks.Nodup) (hkey : ∀ k' ∈ ks, normKey (f k') = k') (hk : normKey (f k) = k) :
    replaceFirstEq (ks.map f) (f k) r = ks.map (fun k' => if k' = k then r else f k') := by
  induction ks with
  | nil => rfl
  | cons k0 ks ih =>
    simp only [List.map_cons, replaceFirstEq]
    by_cases h0 : k0 = k
    · subst h0
      rw [if_pos rfl, if_pos rfl]
      refine congrArg _ ?_
      refine (List.map_congr_left ?_).symm
      intro a ha
      rw [if_neg]
      intro hc
      subst hc
      exact (List.nodup_cons.mp hnd).1 ha
    · have hne : ¬(f k0 = f k) := by
        intro hc
        exact h0 ((hkey k0 (List.mem_cons_self _ _)).symm.trans (by rw [hc, hk]))
      rw [if_neg hne, if_neg h0]
      refine congrArg _ ?_
      exact ih (List.nodup_cons.mp hnd).2
        (fun k' h' => hkey k' (List.mem_cons_of_mem _ h'))

theorem keptFor_concat_new {pre : List BookSearchResult} {r : BookSearchResult}
    (h : normKey r ∉ pre.map normKey) : keptFor (pre ++ [r]) (normKey r) = r := by
  unfold keptFor
  rw [groupFor_concat, if_pos rfl, groupFor_eq_nil h, List.nil_append]
  cases hir : hasImage r with
  | true => simp [List.find?, hir]
  | false => simp [List.find?, hir]

theorem keptFor_concat_replace {pre : List BookSearchResult} {r : BookSearchResult} {k : String}
    (hk : normKey r = k) (himg : hasImage (keptFor pre k) = false) (hr : hasImage r = true) :
    keptFor (pre ++ [r]) k = r := by
  have hfind : (groupFor pre k).find? hasImage = none := by
    cases hf : (groupFor pre k).find? hasImage with
    | none => rfl
    | some x =>
      have hx : hasImage x = true := List.find?_some hf
      have : keptFor pre k = x := by unfold keptFor; rw [hf]; rfl
      rw [this, hx] at himg
      cases himg
  unfold keptFor
  rw [groupFor_concat, if_pos hk, List.find?_append, hfind]
  simp [List.find?, hr]

theorem keptFor_concat_keep {pre : List BookSearchResult} {r : BookSearchResult} {k : String}
    (hmem : k ∈ pre.map normKey) (hk : normKey r = k)
    (hcond : hasImage (keptFor pre k) = true ∨ hasImage r = false) :
    keptFor (pre ++ [r]) k = keptFor pre k := by
  cases hf : (groupFor pre k).find? hasImage with
  | some x =>
    have h1 : keptFor pre k = x := by unfold keptFor; rw [hf]; rfl
    have h2 : keptFor (pre ++ [r]) k = x := by
      unfold keptFor
      rw [groupFor_concat, if_pos hk, List.find?_append, hf]
      rfl
    rw [h1, h2]
  | none =>
    have hkept : keptFor pre k = (groupFor pre k).headD default := by
      unfold keptFor; rw [hf]; rfl
    have hrimg : hasImage r = false := by
      cases hcond with
      | inr h => exact h
      | inl h =>
        exfalso
        have hmemg := keptFor_mem_group hmem
        have := List.find?_eq_none.mp hf _ hmemg
        rw [h] at this
        exact this rfl
    have h2 : keptFor (pre ++ [r]) k = (groupFor pre k ++ [r]).headD default := by
      unfold keptFor
      rw [groupFor_concat, if_pos hk, List.find?_append, hf]
      simp [List.find?, hrimg]
    rw [h2, hkept]
    cases hg : groupFor pre k with
    | nil => exact absurd hg (groupFor_ne_nil hmem)
    | cons g gs => simp

theorem lookup_cons_self {seen : List (String × BookSearchResult)} {k : String}
    {r : BookSearchResult} : List.lookup k ((k, r) :: seen) = some r := by
  simp [List.lookup]

theorem lookup_cons_ne {seen : List (String × BookSearchResult)} {k k' : String}
    {r : BookSearchResult} (h : k' ≠ k) :
    List.lookup k' ((k, r) :: seen) = List.lookup k' seen := by
  have hb : (k' == k) = false := beq_eq_false_iff_ne.mpr h
  simp [List.lookup, hb]

theorem dedupGo_spec :
    ∀ (rest pre ded : List BookSearchResult) (seen : List (String × BookSearchResult)),
      ded = specDedup pre →
      (∀ k, seen.lookup k =
        if k ∈ pre.map normKey then some (keptFor pre k) else none) →
      dedupGo rest ded seen = specDedup (pre ++ rest) := by
  intro rest
  induction rest with
  | nil =>
    intro pre ded seen hded _
    rw [List.append_nil]
    exact hded
  | cons r rest ih =>
    intro pre ded seen hded hseen
    have hstep : pre ++ r :: rest = (pre ++ [r]) ++ rest := by simp
    rw [hstep]
    show (match seen.lookup (normKey r) with
      | none => dedupGo rest (ded ++ [r]) ((normKey r, r) :: seen)
      | some kept =>
        if hasImage r && !hasImage kept then
          dedupGo rest (replaceFirstEq ded kept r) ((normKey r, r) :: seen)
        else dedupGo rest ded seen) = specDedup ((pre ++ [r]) ++ rest)
    rw [hseen (normKey r)]
    by_cases hk : normKey r ∈ pre.map normKey
    · rw [if_pos hk]
      show (if hasImage r && !hasImage (keptFor pre (normKey r)) then
          dedupGo rest (replaceFirstEq ded (keptFor pre (normKey r)) r) ((normKey r, r) :: seen)
        else dedupGo rest ded seen) = specDedup ((pre ++ [r]) ++ rest)
      by_cases hcond : (hasImage r && !hasImage (keptFor pre (normKey r))) = true
      · rw [if_pos hcond]
        have hcp := hcond
        simp only [Bool.and_eq_true, Bool.not_eq_true'] at hcp
        have hr : hasImage r = true := hcp.1
        have hki : hasImage (keptFor pre (normKey r)) = false := hcp.2
        have hrepl : keptFor (pre ++ [r]) (normKey r) = r :=
          keptFor_concat_replace rfl hki hr
        refine ih (pre ++ [r]) _ _ ?_ ?_
        · rw [hded, specDedup, specDedup, specKeys_concat_mem hk]
          have hnd : (specKeys pre).Nodup := firstOccAux_nodup
          have hrw := replaceFirstEq_map (f := keptFor pre) (k := normKey r) (r := r) hnd
            (fun k' h' => keptFor_normKey (mem_firstOccAux.mp h').1)
            (keptFor_normKey hk)
          rw [hrw]
          refine List.map_congr_left ?_
          intro k' h'
          by_cases hkk : k' = normKey r
          · subst hkk
            rw [if_pos rfl, hrepl]
          · rw [if_neg hkk]
            exact (keptFor_concat_ne (fun hc => hkk hc.symm)).symm
        · intro k''
          by_cases hkk : k'' = normKey r
          · subst hkk
            rw [lookup_cons_self, if_pos (by simp [List.map_append])]
            rw [hrepl]
          · rw [lookup_cons_ne hkk, hseen k'']
            have hmm : (k'' ∈ (pre ++ [r]).map normKey) ↔ (k'' ∈ pre.map normKey) := by
              simp only [List.map_append, List.mem_append, List.map_cons, List.map_nil,
                List.mem_cons, List.mem_singleton]
              constructor
              · rintro (h | h)
                · exact h
                · simp at h
                  exact absurd h hkk
              · exact Or.inl
            by_cases hmem : k'' ∈ pre.map normKey
            · rw [if_pos hmem, if_pos (hmm.mpr hmem)]
              rw [keptFor_concat_ne (fun hc => hkk hc.symm)]
            · rw [if_neg hmem, if_neg (fun hc => hmem (hmm.mp hc))]
      · rw [if_neg hcond]
        have hcond' : hasImage (keptFor pre (normKey r)) = true ∨ hasImage r = false := by
          cases hr : hasImage r
          · exact Or.inr rfl
          · cases hki : hasImage (keptFor pre (normKey r))
            · exfalso
              apply hcond
              rw [hr, hki]
              rfl
            · exact Or.inl rfl
        have hkeep : keptFor (pre ++ [r]) (normKey r) = keptFor pre (normKey r) :=
          keptFor_concat_keep hk rfl hcond'
        refine ih (pre ++ [r]) _ _ ?_ ?_
        · rw [hded, specDedup, specDedup, specKeys_concat_mem hk]
          refine List.map_congr_left ?_
          intro k' h'
          by_cases hkk : k' = normKey r
          · subst hkk
            exact hkeep.symm
          · exact (keptFor_concat_ne (fun hc => hkk hc.symm)).symm
        · intro k''
          rw [hseen k'']
          have hmm : (k'' ∈ (pre ++ [r]).map normKey) ↔ (k'' ∈ pre.map normKey) := by
            simp only [List.map_append, List.mem_append, List.map_cons, List.map_nil,
              List.mem_cons, List.mem_singleton]
            constructor
            · rintro (h | h)
              · exact h
              · simp at h
                subst h
                exact hk
            · exact Or.inl
          by_cases hmem : k'' ∈ pre.map normKey
          · rw [if_pos hmem, if_pos (hmm.mpr hmem)]
            by_cases hkk : k'' = normKey r
            · subst hkk
              rw [hkeep]
            · rw [keptFor_concat_ne (fun hc => hkk hc.symm)]
          · rw [if_neg hmem, if_neg (fun hc => hmem (hmm.mp hc))]
    · rw [if_neg hk]
      have hnew : keptFor (pre ++ [r]) (normKey r) = r := keptFor_concat_new hk
      refine ih (pre ++ [r]) _ _ ?_ ?_
      · rw [hded, specDedup, specDedup, specKeys_concat_notmem hk, List.map_append]
        refine congrArg₂ _ ?_ ?_
        · refine List.map_congr_left ?_
          intro k' h'
          have hkk : k' ≠ normKey r := by
            intro hc
            subst hc
            exact hk (mem_firstOccAux.mp h').1
          exact (keptFor_concat_ne (fun hc => hkk hc.symm)).symm
        · simp [hnew]
      · intro k''
        by_cases hkk : k'' = normKey r
        · subst hkk
          rw [lookup_cons_self, if_pos (by simp [List.map_append]), hnew]
        · rw [lookup_cons_ne hkk, hseen k'']
          have hmm : (k'' ∈ (pre ++ [r]).map normKey) ↔ (k'' ∈ pre.map normKey) := by
            simp only [List.map_append, List.mem_append, List.map_cons, List.map_nil,
              List.mem_cons, List.mem_singleton]
            constructor
            · rintro (h | h)
              · exact h
              · simp at h
                exact absurd h hkk
            · exact Or.inl
          by_cases hmem : k'' ∈ pre.map normKey
          · rw [if_pos hmem, if_pos (hmm.mpr hmem)]
            rw [keptFor_concat_ne (fun hc => hkk hc.symm)]
          · rw [if_neg hmem, if_neg (fun hc => hmem (hmm.mp hc))]

/-! ## Claim theorems -/

/-- C10: the ETA formatter's year suffix is the constant `'25`: every value
of the month lookup table ends in `'25`, every result of `format_eta` ends
in `'25`, and an unrecognized token is returned unchanged with ` '25`
appended — independent of the input text or any date. -/
theorem C10_eta_year_suffix_constant :
    (∀ m : String, ∃ p : List Char,
        (LitterazyParser.format_eta m).data = p ++ "'25".data) ∧
    (∀ pr ∈ monthMap, ∃ p : List Char, pr.2.data = p ++ "'25".data) ∧
    (∀ m : String, monthMap.lookup (pyUpper m) = none →
        LitterazyParser.format_eta m = m ++ " '25") := by
  have htable : ∀ pr ∈ monthMap, ∃ p : List Char, pr.2.data = p ++ "'25".data := by
    intro pr hpr
    fin_cases hpr
    · exact ⟨"Jan ".data, rfl⟩
    · exact ⟨"Feb ".data, rfl⟩
    · exact ⟨"Mar ".data, rfl⟩
    · exact ⟨"Apr ".data, rfl⟩
    · exact ⟨"Mei ".data, rfl⟩
    · exact ⟨"May ".data, rfl⟩
    · exact ⟨"Jun ".data, rfl⟩
    · exact ⟨"Jul ".data, rfl⟩
    · exact ⟨"Aug ".data, rfl⟩
    · exact ⟨"Aug ".data, rfl⟩
    · exact ⟨"Sep ".data, rfl⟩
    · exact ⟨"Oct ".data, rfl⟩
    · exact ⟨"Oct ".data, rfl⟩
    · exact ⟨"Nov ".data, rfl⟩
    · exact ⟨"Dec ".data, rfl⟩
    · exact ⟨"Dec ".data, rfl⟩
  refine ⟨?_, htable, ?_⟩
  · intro m
    unfold LitterazyParser.format_eta
    cases h : monthMap.lookup (pyUpper m) with
    | some v => exact htable _ (lookup_mem h)
    | none =>
      refine ⟨m.data ++ [' '], ?_⟩
      rw [String.data_append, List.append_assoc]
      rfl
  · intro m h
    unfold LitterazyParser.format_eta
    rw [h]

/-- C10 witness: the conjuncts applied at concrete inputs ("MEI" via the
table, the "JAN" entry, and the unknown token "Soon"). -/
theorem C10_witness :
    (∃ p : List Char, (LitterazyParser.format_eta "MEI").data = p ++ "'25".data) ∧
    (∃ p : List Char, ("JAN", "Jan '25").2.data = p ++ "'25".data) ∧
    LitterazyParser.format_eta "Soon" = "Soon" ++ " '25" :=
  ⟨C10_eta_year_suffix_constant.1 "MEI",
   C10_eta_year_suffix_constant.2.1 ("JAN", "Jan '25") (by simp [monthMap]),
   C10_eta_year_suffix_constant.2.2 "Soon" rfl⟩

/-- C3: the completion evaluator (modelled from the spec) returns `true`
exactly when the title is present and non-empty and the main price is
present, and the generative-fallback tier is invoked exactly on its `false`
verdict. -/
theorem C3_completion_evaluator (r : ParsedBroadcast) :
    (is_complete r = true ↔
      ((∃ t, r.title = some t ∧ t ≠ "") ∧ ∃ p, r.price_main = some p)) ∧
    (escalates_to_generative r = true ↔ is_complete r = false) := by
  constructor
  · unfold is_complete
    cases ht : r.title with
    | none => simp
    | some t =>
      cases hp : r.price_main with
      | none => simp
      | some p => simp
  · unfold escalates_to_generative
    cases h : is_complete r <;> simp

/-- C5: Scenario B — the fixed single-line grammar parses the sample input
to title "Plastic Sucks", format "HC", price 130000, ETA "Mei '25", and a
description starting with "How can YOU help". -/
theorem C5_scenario_b :
    ∃ pb, LitterazyParser.parse
        "Plastic Sucks HC 130.000 ETA MEI 🌸🌸🌸 How can YOU help..." 0 = Except.ok pb ∧
      pb.title = some "Plastic Sucks" ∧
      pb.format = some "HC" ∧
      pb.price_main = some 130000 ∧
      pb.eta = some "Mei '25" ∧
      "How can YOU help".data.isPrefixOf (pb.description_en.getD "").data = true := by
  refine ⟨pbOfE (LitterazyParser.parse
    "Plastic Sucks HC 130.000 ETA MEI 🌸🌸🌸 How can YOU help..." 0),
    ?_, ?_, ?_, ?_, ?_, ?_⟩ <;> rfl

/-- C6 counterexample: on `"Abc 🌹 Def"` the grammar does not match, and the
fallback title is the whole first line — the separator glyph 🌹 does not
bound it (the fallback's character class omits 🌹, 🌻 and 🌼), contradicting
"the portion of the first line up to the first occurrence of any separator
glyph". -/
theorem C6_counterexample :
    headerMatch (pyStripL ("Abc 🌹 Def").toList) = none ∧
    LitterazyParser.parse "Abc 🌹 Def" 0 =
      Except.ok (LitterazyParser.fallback_parse "Abc 🌹 Def" 0) ∧
    (LitterazyParser.fallback_parse "Abc 🌹 Def" 0).title = some "Abc 🌹 Def" ∧
    some "Abc 🌹 Def" ≠ (some "Abc" : Option String) ∧
    some "Abc 🌹 Def" ≠ (some "Abc " : Option String) := by
  refine ⟨rfl, rfl, rfl, by decide, by decide⟩

/-- C6 (amended): whenever the fixed grammar does not match the stripped
input, the parser does not fail: it returns a record whose title is the
maximal nonempty prefix of the stripped first line containing none of
🌸 🌺 🌷 💐 (absent when that line starts with one of them; 🌹 🌻 🌼 do not
bound it), whitespace-stripped and truncated to 100 characters; whose
price_main is the first `\b\d{2,3}\.\d{3}\b` numeral of the whole text with
the dot removed (absent when there is none); and whose description is the
full input text. -/
theorem C6_fallback_salvage (text : String) (mc : Nat)
    (h : headerMatch (pyStripL text.toList) = none) :
    LitterazyParser.parse text mc = Except.ok (LitterazyParser.fallback_parse text mc) ∧
    (LitterazyParser.fallback_parse text mc).title =
      (let run := (pyStripL (firstLineOf (pyStripL text.toList))).takeWhile
        (fun c => !(isFallbackEmoji c))
       if run.isEmpty then none else some (String.mk ((pyStripL run).take 100))) ∧
    (LitterazyParser.fallback_parse text mc).price_main = findPrice text.toList ∧
    (LitterazyParser.fallback_parse text mc).description_en = some text ∧
    (LitterazyParser.fallback_parse text mc).raw_text = text := by
  refine ⟨?_, rfl, rfl, rfl, rfl⟩
  unfold LitterazyParser.parse
  rw [h]

/-- C6 witness: the amended theorem applied at a concrete
non-grammar input. -/
theorem C6_witness :
    LitterazyParser.parse "Some Book 🌸 more\nsecond 55.000 line" 3 =
      Except.ok (LitterazyParser.fallback_parse "Some Book 🌸 more\nsecond 55.000 line" 3) ∧
    (LitterazyParser.fallback_parse "Some Book 🌸 more\nsecond 55.000 line" 3).title =
      some "Some Book" ∧
    (LitterazyParser.fallback_parse "Some Book 🌸 more\nsecond 55.000 line" 3).price_main =
      some 55000 := by
  have h := C6_fallback_salvage "Some Book 🌸 more\nsecond 55.000 line" 3 rfl
  refine ⟨h.1, ?_, ?_⟩
  · rw [h.2.1]
    rfl
  · rw [h.2.2.1]
    rfl

/-- C2 counterexample: with a transform rule whose captured text is not
numeric, followed by a rule for the same field that would parse, the engine
raises `ValueError` instead of treating the failed rule as a non-match and
trying the next one. -/
theorem C2_counterexample :
    FGBParser.extract_field false [ruleBadCapture, ruleGoodPrice] "Rp N/A then 42.000" =
      Except.error PyError.valueError ∧
    FGBParser.extract_field false [ruleBadCapture, ruleGoodPrice] "Rp N/A then 42.000" ≠
      Except.ok (some (FieldValue.int 42000)) := by
  have h : FGBParser.extract_field false [ruleBadCapture, ruleGoodPrice] "Rp N/A then 42.000" =
      Except.error PyError.valueError := rfl
  refine ⟨h, ?_⟩
  rw [h]
  intro hc
  exact Except.noConfusion hc

/-- C2 (amended): a matching non-multi rule carrying the
thousands-separator transform whose captured text does not parse as an
integer after removing `.` and `,` makes field extraction raise
`ValueError` to its caller — the rule is not treated as a non-match, and
the remaining rules for the field are not tried. -/
theorem C2_transform_failure_raises (r : PatternRule) (rest : List PatternRule)
    (text v : String)
    (hmulti : r.multi = false) (hsearch : r.search text = some v)
    (htrans : r.transform = true) (hfail : pyIntParse (removeSeps v.data) = none) :
    FGBParser.extract_field false (r :: rest) text = Except.error PyError.valueError := by
  unfold FGBParser.extract_field FGBParser.try_rules
  simp [hmulti, hsearch, htrans, hfail]

/-- C2 witness: the amended theorem applied at a concrete rule pair and
input. -/
theorem C2_witness :
    FGBParser.extract_field false [ruleBadCapture, ruleGoodPrice] "broadcast text" =
      Except.error PyError.valueError :=
  C2_transform_failure_raises ruleBadCapture [ruleGoodPrice] "broadcast text" "N/A"
    rfl rfl rfl rfl

/-- C1 counterexample: on a 101-character first line the generative
fallback's title is truncated to 100 characters, so it is not "the first
line of the input with leading category markers and surrounding decoration
stripped" (which here is the full 101-character line). -/
theorem C1_counterexample :
    (AIParser.parse (fun _ => none) (Except.error "backend down") longLine 0).title =
      some (String.mk (List.replicate 100 'a')) ∧
    claimFallbackTitle longLine = longLine ∧
    (AIParser.parse (fun _ => none) (Except.error "backend down") longLine 0).title ≠
      some (claimFallbackTitle longLine) := by
  have h1 : (AIParser.parse (fun _ => none) (Except.error "backend down") longLine 0).title =
      some (String.mk (List.replicate 100 'a')) := by decide
  have h2 : claimFallbackTitle longLine = longLine := by decide
  refine ⟨h1, h2, ?_⟩
  rw [h1, h2]
  decide

/-- C1 (amended): whenever the generative backend call errors, or its
response yields no parseable JSON, `AIParser.parse` does not raise and
returns the minimal fallback record: `ai_fallback = true`, `raw_text` and
the description equal to the input, and the title equal to the first line
of the whitespace-stripped input truncated to its first 100 characters,
with leading category markers ("READY", "Remainderbook", "Request") and
surrounding asterisks/whitespace stripped. -/
theorem C1_generative_failure_fallback (jsonExtract : String → Option ExtractedData)
    (text : String) (mc : Nat) :
    (∀ err, AIParser.parse jsonExtract (Except.error err) text mc =
      AIParser.create_fallback text mc) ∧
    (∀ resp, jsonExtract resp = none →
      AIParser.parse jsonExtract (Except.ok resp) text mc =
        AIParser.create_fallback text mc) ∧
    (AIParser.create_fallback text mc).ai_fallback = true ∧
    (AIParser.create_fallback text mc).title = some (specFallbackTitle text) ∧
    (AIParser.create_fallback text mc).raw_text = text ∧
    (AIParser.create_fallback text mc).description_en = some text ∧
    (AIParser.create_fallback text mc).media_count = mc := by
  refine ⟨fun err => rfl, fun resp h => ?_, rfl, rfl, rfl, rfl, rfl⟩
  show (match jsonExtract resp with
    | none => AIParser.create_fallback text mc
    | some d => AIParser.to_parsed_broadcast d text mc) = AIParser.create_fallback text mc
  rw [h]

/-- C1 witness: the amended theorem applied at a concrete input whose first
line carries a READY marker and decoration. -/
theorem C1_witness :
    AIParser.parse (fun _ => none) (Except.ok "no json here")
      "*[READY] - Cool Book*\nrest" 1 =
      AIParser.create_fallback "*[READY] - Cool Book*\nrest" 1 ∧
    (AIParser.create_fallback "*[READY] - Cool Book*\nrest" 1).title = some "Cool Book" ∧
    (AIParser.create_fallback "*[READY] - Cool Book*\nrest" 1).ai_fallback = true := by
  refine ⟨(C1_generative_failure_fallback (fun _ => none) _ 1).2.1 "no json here" rfl,
    ?_, (C1_generative_failure_fallback (fun _ => none) _ 1).2.2.1⟩
  rw [(C1_generative_failure_fallback (fun _ => none) "*[READY] - Cool Book*\nrest" 1).2.2.2.1]
  rfl

/-- C9: `raw_text` round-trips through every tier: whenever a parser tier
returns a `ParsedBroadcast`, its `raw_text` is the exact input string,
untransformed and untruncated (for the tiers embedded in `Except`, this is
conditioned on the parse returning rather than raising; the generative tier
is total). -/
theorem C9_raw_text_round_trip :
    (∀ skip patterns text mc r,
      FGBParser.parse skip patterns text mc = Except.ok r → r.raw_text = text) ∧
    (∀ text mc r,
      LitterazyParser.parse text mc = Except.ok r → r.raw_text = text) ∧
    (∀ jsonExtract backend text mc,
      (AIParser.parse jsonExtract backend text mc).raw_text = text) := by
  refine ⟨?_, ?_, ?_⟩
  · intro skip patterns text mc r h
    unfold FGBParser.parse at h
    obtain ⟨v1, -, h⟩ := except_bind_ok h
    obtain ⟨v2, -, h⟩ := except_bind_ok h
    obtain ⟨v3, -, h⟩ := except_bind_ok h
    obtain ⟨v4, -, h⟩ := except_bind_ok h
    obtain ⟨v5, -, h⟩ := except_bind_ok h
    obtain ⟨v6, -, h⟩ := except_bind_ok h
    obtain ⟨v7, -, h⟩ := except_bind_ok h
    obtain ⟨v8, -, h⟩ := except_bind_ok h
    obtain ⟨v9, -, h⟩ := except_bind_ok h
    obtain ⟨v10, -, h⟩ := except_bind_ok h
    obtain ⟨v11, -, h⟩ := except_bind_ok h
    obtain ⟨v12, -, h⟩ := except_bind_ok h
    injection h with h
    subst h
    rfl
  · intro text mc r h
    unfold LitterazyParser.parse at h
    repeat split at h
    all_goals
      first
      | exact Except.noConfusion h
      | (injection h with h; subst h; rfl)
  · intro jsonExtract backend text mc
    cases backend with
    | error e => rfl
    | ok resp =>
      show (match jsonExtract resp with
        | none => AIParser.create_fallback text mc
        | some d => AIParser.to_parsed_broadcast d text mc).raw_text = text
      cases jsonExtract resp <;> rfl

/-- C9 witness: the round-trip applied at concrete inputs for each tier. -/
theorem C9_witness :
    (pbOfE (FGBParser.parse emptySkip emptyPatterns "hello fgb" 4)).raw_text = "hello fgb" ∧
    (pbOfE (LitterazyParser.parse "hello lit" 5)).raw_text = "hello lit" ∧
    (AIParser.parse (fun _ => none) (Except.error "down") "hello ai" 6).raw_text = "hello ai" :=
  ⟨C9_raw_text_round_trip.1 emptySkip emptyPatterns "hello fgb" 4 _ rfl,
   C9_raw_text_round_trip.2.1 "hello lit" 5 _ rfl,
   C9_raw_text_round_trip.2.2 (fun _ => none) (Except.error "down") "hello ai" 6⟩

/-- C4: the description window of the multi-line parser starts immediately
after the decorative separator run when one is present, otherwise
immediately after the end of the price line (and the description is empty
when neither exists); it ends at the earliest of the `Preview` marker
(optionally underscore-wrapped) or the first http(s) URL, or at the end of
input when neither end marker occurs; the slice is returned stripped of
emphasis punctuation with all whitespace runs collapsed to single spaces. -/
theorem C4_description_window (text : String) :
    (∀ e, sepRunEnd text.toList = some e →
      FGBParser.extract_description text =
        descCleanup ((text.toList.drop e).take (descEndPos (text.toList.drop e)))) ∧
    (sepRunEnd text.toList = none → ∀ e, priceLineEnd text.toList = some e →
      FGBParser.extract_description text =
        descCleanup ((text.toList.drop e).take (descEndPos (text.toList.drop e)))) ∧
    (sepRunEnd text.toList = none → priceLineEnd text.toList = none →
      FGBParser.extract_description text = "") := by
  refine ⟨?_, ?_, ?_⟩
  · intro e he
    dsimp only [FGBParser.extract_description]
    rw [he]
    rw [← slice_eq_take_descEndPos (text.toList.drop e)]
  · intro hs e he
    dsimp only [FGBParser.extract_description]
    rw [hs, he]
    rw [← slice_eq_take_descEndPos (text.toList.drop e)]
  · intro hs he
    dsimp only [FGBParser.extract_description]
    rw [hs, he]

/-- C4 witness: the window theorem applied at a separator-delimited input
and at a price-line-delimited one. -/
theorem C4_witness :
    FGBParser.extract_description "head\n🌳🌳🌳 A *story* here\n_Preview:_ https://x" =
      "A story here" ∧
    FGBParser.extract_description "head\n🏷️ Rp 100.000\nDesc *here* https://y" =
      "Desc here" := by
  constructor
  · rw [(C4_description_window "head\n🌳🌳🌳 A *story* here\n_Preview:_ https://x").1 _ rfl]
    rfl
  · rw [(C4_description_window "head\n🏷️ Rp 100.000\nDesc *here* https://y").2.1 rfl _ rfl]
    rfl

/-- C7: the deduplication pass of `search_books` satisfies the contract:
results are grouped by the key obtained by lowercasing the title and
stripping non-alphanumeric characters; the output has one result per
distinct key, at the key's first-seen position; the kept result is the
group's first unless a later one carries an image while the kept one does
not — iterated, the group's first image-bearing result, else its first
result.  In particular, two normalized-equal titles where only the second
has an image yield exactly one output, at the first one's position, being
the image-carrying second result. -/
theorem C7_dedup_contract :
    (∀ rs : List BookSearchResult, BookResearcher.dedup rs = specDedup rs) ∧
    (∀ r1 r2 : BookSearchResult, normKey r1 = normKey r2 →
      hasImage r1 = false → hasImage r2 = true →
      BookResearcher.dedup [r1, r2] = [r2]) := by
  have hmain : ∀ rs, BookResearcher.dedup rs = specDedup rs := by
    intro rs
    unfold BookResearcher.dedup
    have h := dedupGo_spec rs [] [] [] rfl (fun k => by simp [List.lookup])
    simpa using h
  refine ⟨hmain, ?_⟩
  intro r1 r2 hk h1 h2
  rw [hmain]
  have hkeys : specKeys [r1, r2] = [normKey r2] := by
    simp [specKeys, firstOccAux, hk]
  rw [specDedup, hkeys]
  simp only [List.map_cons, List.map_nil]
  have hg : groupFor [r1, r2] (normKey r2) = [r1, r2] := by
    simp [groupFor, hk]
  unfold keptFor
  rw [hg]
  simp [List.find?, h1, h2]

/-- C7 witness: the replacement clause applied at two concrete results with
normalized-equal titles where only the second carries an image URL. -/
theorem C7_witness : BookResearcher.dedup [resPlain, resImg] = [resImg] :=
  C7_dedup_contract.2 resPlain resImg rfl rfl rfl

/-- C8 counterexample: the title-cleaning pipeline is not idempotent — on a
nested interview-style title the interview-unwrap stage applies once per
pass, so a second application truncates further. -/
theorem C8_counterexample :
    BookResearcher.clean_title "Mary Sue on Bob Jones on Cats" = "Bob Jones on Cats" ∧
    BookResearcher.clean_title (BookResearcher.clean_title "Mary Sue on Bob Jones on Cats") =
      "Cats" ∧
    BookResearcher.clean_title (BookResearcher.clean_title "Mary Sue on Bob Jones on Cats") ≠
      BookResearcher.clean_title "Mary Sue on Bob Jones on Cats" := by
  have h1 : BookResearcher.clean_title "Mary Sue on Bob Jones on Cats" =
      "Bob Jones on Cats" := rfl
  have h2 : BookResearcher.clean_title "Bob Jones on Cats" = "Cats" := rfl
  refine ⟨h1, by rw [h1]; exact h2, ?_⟩
  rw [h1, h2]
  decide

/-- C8 (amended): the cleaning pipeline is idempotent on the spec's own
example titles (Scenarios C and E), but not on every string: a title in
which the unwrapped remainder of the interview pattern again matches the
interview pattern is truncated further by a second application. -/
theorem C8_idempotent_on_scenario_titles :
    BookResearcher.clean_title (BookResearcher.clean_title
        "Alley Cat Rally: 1 : Ricky Trickartt, Ricky Trickartt: Amazon.co.uk: Books") =
      BookResearcher.clean_title
        "Alley Cat Rally: 1 : Ricky Trickartt, Ricky Trickartt: Amazon.co.uk: Books" ∧
    BookResearcher.clean_title (BookResearcher.clean_title
        "Ricky Trickartt on Alley Cat Rally") =
      BookResearcher.clean_title "Ricky Trickartt on Alley Cat Rally" :=
  ⟨rfl, rfl⟩

end Bookstore
